import Mathlib

/-!
Shallow embedding of the core of the `search` service (Python sources under
`src/`): query processing (`src/search/query_processor_simple.py`), the search
engine (`src/search/engine_simple.py`), the indexer
(`src/search/indexer_simple.py`), the feed manager (`src/feed/parser.py`),
the feed scheduler (`src/feed/scheduler.py`), the store facade
(`src/api/storage.py`) and the API search endpoint (`src/api/main.py`).

Modelling conventions:
* Python dicts are association lists with first-match lookup and in-place
  update (`dset`); Python floats are rationals `ℚ`; `None` is `Option.none`.
* `json.loads` of a product record is a dict `List (String × JVal)`.
* Unicode lowercasing and the regex classes `\w`/`\s` are modelled for the
  ASCII and Cyrillic repertoires, the alphabets the service works with.
* Redis is modelled per project by the structure `KV`; `zrevrange` renders a
  sorted set highest score first, ties in reverse lexicographic member order.
* I/O outcomes (feed fetch/parse) enter as `Except String` parameters.
-/

namespace SearchSvc

/-! ### Association-list (Python dict) primitives -/

/-- First-match lookup, `d.get(k)`. -/
def dget? {κ α : Type} [DecidableEq κ] : List (κ × α) → κ → Option α
  | [], _ => none
  | p :: rest, k => if p.1 = k then some p.2 else dget? rest k

/-- Lookup with default, `d.get(k, v₀)`. -/
def dgetD {κ α : Type} [DecidableEq κ] (m : List (κ × α)) (k : κ) (v₀ : α) : α :=
  (dget? m k).getD v₀

/-- Dict assignment `d[k] = v`: replace in place, else append (insertion order). -/
def dset {κ α : Type} [DecidableEq κ] : List (κ × α) → κ → α → List (κ × α)
  | [], k, v => [(k, v)]
  | p :: rest, k, v => if p.1 = k then (k, v) :: rest else p :: dset rest k v

/-- `defaultdict(float)` accumulation `d[k] += v`. -/
def dAdd {κ : Type} [DecidableEq κ] (m : List (κ × ℚ)) (k : κ) (v : ℚ) : List (κ × ℚ) :=
  dset m k (dgetD m k 0 + v)

/-- Set insertion `s.add(x)` keeping first-insertion order. -/
def sAdd {α : Type} [DecidableEq α] (s : List α) (x : α) : List α :=
  if x ∈ s then s else s ++ [x]

/-! ### Query processor (`query_processor_simple.py`) -/

/-- `DEFAULT_STOPWORDS_RU` from the source. -/
def stopwordsRU : List String :=
  ["и", "в", "во", "не", "что", "он", "на", "я", "с", "со", "как", "а", "то",
   "все", "она", "так", "его", "но", "да", "ты", "к", "у", "же", "вы", "за",
   "бы", "по", "только", "её", "ее", "мне", "было", "вот", "от", "меня", "ещё",
   "нет", "о", "из", "ему", "теперь", "когда", "уже", "вам", "ни", "быть", "был",
   "для", "мы", "их", "без", "том", "более", "всего"]

/-- `EN_TO_RU` keyboard-position map from the source. -/
def enToRu : List (Char × Char) :=
  [('q', 'й'), ('w', 'ц'), ('e', 'у'), ('r', 'к'), ('t', 'е'), ('y', 'н'), ('u', 'г'),
   ('i', 'ш'), ('o', 'щ'), ('p', 'з'), ('[', 'х'), (']', 'ъ'), ('a', 'ф'), ('s', 'ы'),
   ('d', 'в'), ('f', 'а'), ('g', 'п'), ('h', 'р'), ('j', 'о'), ('k', 'л'), ('l', 'д'),
   (';', 'ж'), ('\'', 'э'), ('z', 'я'), ('x', 'ч'), ('c', 'с'), ('v', 'м'), ('b', 'и'),
   ('n', 'т'), ('m', 'ь'), (',', 'б'), ('.', 'ю'), ('/', '.')]

/-- `RU_TO_EN = {v: k for k, v in EN_TO_RU.items()}`. -/
def ruToEn : List (Char × Char) := enToRu.map (fun p => (p.2, p.1))

/-- `str.lower` restricted to the ASCII and Cyrillic repertoires. -/
def pyLower (c : Char) : Char :=
  if 'A' ≤ c ∧ c ≤ 'Z' then Char.ofNat (c.toNat + 32)
  else if 0x410 ≤ c.toNat ∧ c.toNat ≤ 0x42F then Char.ofNat (c.toNat + 0x20)
  else if c.toNat = 0x401 then Char.ofNat 0x451
  else c

/-- Regex `\w` (letters, digits, underscore) over ASCII plus Cyrillic. -/
def isWordChar (c : Char) : Bool :=
  c.isAlphanum || c = '_' ||
  (0x410 ≤ c.toNat && c.toNat ≤ 0x44F) || c.toNat = 0x401 || c.toNat = 0x451

/-- Accumulator pass of `str.split()` over the character list. -/
def splitWsGo : List Char → List Char → List String
  | [], cur => if cur = [] then [] else [String.mk cur.reverse]
  | c :: rest, cur =>
      if c.isWhitespace then
        (if cur = [] then splitWsGo rest []
         else String.mk cur.reverse :: splitWsGo rest [])
      else splitWsGo rest (c :: cur)

/-- `str.split()` — split on whitespace runs, dropping empty pieces. -/
def pySplit (s : String) : List String :=
  splitWsGo s.data []

/-- `str.split(sep)` for a one-character separator — keeps empty pieces. -/
def splitOnChar (sep : Char) : List Char → List (List Char)
  | [] => [[]]
  | c :: rest =>
      if c = sep then [] :: splitOnChar sep rest
      else
        match splitOnChar sep rest with
        | h :: t => (c :: h) :: t
        | [] => [[c]]

/-- `" ".join(words)`. -/
def joinSpaces (ws : List String) : String :=
  String.mk (((ws.map String.data).intersperse [' ']).flatten)

/-- `convert_layout(text, to_russian)`. -/
def convertLayout (text : String) (toRussian : Bool) : String :=
  let m := if toRussian then enToRu else ruToEn
  String.mk (text.data.map (fun c => dgetD m (pyLower c) (pyLower c)))

/-- `SimpleQueryProcessor.normalize`: lowercase, `ё → е`, non-`[\w\s-]` to
space, collapse whitespace, trim. -/
def normalize (query : String) : String :=
  let lowered := query.data.map pyLower
  let yo := lowered.map (fun c => if c = 'ё' then 'е' else c)
  let cleaned := yo.map (fun c =>
    if isWordChar c || c.isWhitespace || c = '-' then c else ' ')
  joinSpaces (splitWsGo cleaned [])

/-- Body of the token loop of `SimpleQueryProcessor.tokenize` for one
surface form `t` (appends the form, then hyphen-joined and hyphen parts). -/
def tokenStep (tokens : List String) (t : String) : List String :=
  if t = "" || t ∈ stopwordsRU then tokens
  else
    let tokens := if t.length > 1 then tokens ++ [t] else tokens
    if t.data.contains '-' then
      let partsL := splitOnChar '-' t.data
      let parts := partsL.map String.mk
      let joined := String.mk partsL.flatten
      let tokens :=
        if joined.length > 1 && joined ∉ tokens then tokens ++ [joined] else tokens
      parts.foldl (fun ts part =>
        if part.length > 1 && part ∉ stopwordsRU && part ∉ ts then ts ++ [part] else ts)
        tokens
    else tokens

/-- `SimpleQueryProcessor.tokenize`. -/
def tokenize (query : String) : List String :=
  (pySplit query).foldl tokenStep []

/-- `SimpleQueryProcessor._get_layout_variants`. -/
def layoutVariants (text : String) : List String :=
  let ruV := convertLayout text true
  let v := if ruV ≠ text then [ruV] else []
  let enV := convertLayout text false
  if enV ≠ text ∧ enV ≠ ruV then v ++ [enV] else v

/-- Result of `SimpleQueryProcessor.process`. -/
structure SearchQuery where
  rawQuery : String
  normalizedQuery : String
  tokens : List String
  variants : List String
deriving Repr, DecidableEq

/-- `SimpleQueryProcessor.process`. -/
def process (query : String) : SearchQuery :=
  let n := normalize query
  ⟨query, n, tokenize n, layoutVariants n⟩

/-- `NGramGenerator.generate` with window `n`. -/
def ngrams (n : ℕ) (text : String) : List String :=
  if text.length < n then [text]
  else (List.range (text.length - n + 1)).map
    (fun i => String.mk ((text.data.drop i).take n))

/-! ### JSON values of a stored product record -/

/-- Values occurring in a product-record JSON object (`json.loads` result).
`params` is a flat string-to-string mapping in the indexed records. -/
inductive JVal where
  | s (v : String)
  | num (v : ℚ)
  | b (v : Bool)
  | null
  | sdict (kvs : List (String × String))
deriving Repr, DecidableEq

/-- Python truthiness of a JSON value. -/
def truthy : JVal → Bool
  | .s v => v ≠ ""
  | .num v => v ≠ 0
  | .b v => v
  | .null => false
  | .sdict kvs => kvs ≠ []

/-- Numeric reading of a JSON value (records store numeric prices). -/
def asQ : JVal → ℚ
  | .num v => v
  | .b v => if v then 1 else 0
  | _ => 0

/-- A stored product record: the JSON object under `products:{p}:{id}`. -/
abbrev Rec := List (String × JVal)

/-! ### Per-project key-value state -/

/-- The per-project slice of Redis.
* `inv t` — the sorted set `idx:{p}:inv:{t}` as `(product_id, score)` pairs;
* `ngramIdx g` — the set `idx:{p}:ngram:{g}` of tokens;
* `store id` — the JSON record at `products:{p}:{id}`;
* `suggest` — the sorted set `idx:{p}:suggest` as `(phrase, count)`;
* `feedStatus` — the hash `project:{p}:feed`;
* `synonyms` — the decoded JSON at `synonyms:{p}`. -/
structure KV where
  inv : List (String × List (String × ℚ))
  ngramIdx : List (String × List String)
  store : List (String × Rec)
  suggest : List (String × ℚ)
  feedStatus : List (String × String)
  synonyms : List (List String)
deriving Repr, DecidableEq

/-- Stable insertion placing `a` before the first `b` with `r a b`. -/
def insertSorted {α : Type} (r : α → α → Bool) (a : α) : List α → List α
  | [] => [a]
  | b :: bs => if r a b then a :: b :: bs else b :: insertSorted r a bs

/-- Stable sort: elements tied under `r` keep their input order. -/
def stableSort {α : Type} (r : α → α → Bool) (l : List α) : List α :=
  l.foldr (insertSorted r) []

/-- `ZREVRANGE key 0 -1 WITHSCORES` ordering: score descending, ties in
reverse lexicographic member order. -/
def zrevOrder (a b : String × ℚ) : Bool :=
  decide (b.2 < a.2) || (decide (a.2 = b.2) && decide (b.1 ≤ a.1))

/-- Entries of `idx:{p}:inv:{t}` as returned by `zrevrange`. -/
def invEntries (st : KV) (t : String) : List (String × ℚ) :=
  stableSort zrevOrder (dgetD st.inv t [])

/-! ### Search engine (`engine_simple.py`) -/

/-- `SimpleSearchEngine._search_inverted_index`: sum posting scores per
product over all tokens, in a `defaultdict(float)`. -/
def searchInvertedIndex (st : KV) (tokens : List String) : List (String × ℚ) :=
  tokens.foldl (fun m t =>
    (invEntries st t).foldl (fun m e => dAdd m e.1 e.2) m) []

/-- `SimpleSearchEngine._token_similarity`: 1 for equal tokens, otherwise
Jaccard similarity of the trigram sets. -/
def tokenSimilarity (t1 t2 : String) : ℚ :=
  if t1 = t2 then 1
  else
    let g1 := (ngrams 3 t1).dedup
    let g2 := (ngrams 3 t2).dedup
    let inter := (g1.filter (· ∈ g2)).length
    let union := (g1 ++ g2.filter (· ∉ g1)).length
    if union > 0 then (inter : ℚ) / (union : ℚ) else 0

/-- Candidate tokens of the n-gram fallback for one query token: the union of
the sets `idx:{p}:ngram:{g}` over the token's trigrams (set-iteration order
modelled as first-insertion order; scores below do not depend on it). -/
def candidateTokens (st : KV) (t : String) : List String :=
  (ngrams 3 t).foldl (fun acc g =>
    (dgetD st.ngramIdx g []).foldl sAdd acc) []

/-- `SimpleSearchEngine._search_ngram_index`: each candidate token's postings
are accumulated multiplied by the token similarity. -/
def searchNgramIndex (st : KV) (tokens : List String) : List (String × ℚ) :=
  tokens.foldl (fun m t =>
    (candidateTokens st t).foldl (fun m mt =>
      (invEntries st mt).foldl (fun m e =>
        dAdd m e.1 (e.2 * tokenSimilarity t mt)) m) m) []

/-- The fallback merge loops of `SimpleSearchEngine.search`: add new product
IDs with score times `factor`, never overwriting existing entries. -/
def mergeFallback (m fallback : List (String × ℚ)) (factor : ℚ) :
    List (String × ℚ) :=
  fallback.foldl (fun m e =>
    if (dget? m e.1).isSome then m else m ++ [(e.1, e.2 * factor)]) m

/-- `SimpleSearchEngine._apply_filters`. Note the engine reads the filter
keys `price_min` / `price_max`. -/
def applyFilters (st : KV) (products : List (String × ℚ))
    (filters : List (String × JVal)) : List (String × ℚ) :=
  if filters = [] then products
  else products.filter (fun pr =>
    match dget? st.store pr.1 with
    | none => false
    | some r =>
      ¬(truthy (dgetD filters "in_stock" .null) ∧ ¬truthy (dgetD r "in_stock" .null)) ∧
      ¬(truthy (dgetD filters "price_min" .null) ∧
          asQ (dgetD r "price" (.num 0)) < asQ (dgetD filters "price_min" .null)) ∧
      ¬(truthy (dgetD filters "price_max" .null) ∧
          asQ (dgetD filters "price_max" .null) < asQ (dgetD r "price" (.num 0))) ∧
      ¬(truthy (dgetD filters "category" .null) ∧
          dgetD r "category" .null ≠ dgetD filters "category" .null))

/-- Python `round` (banker's rounding, half to even). -/
def pyRound (x : ℚ) : ℤ :=
  let f : ℤ := ⌊x⌋
  let r : ℚ := x - f
  if r < 1/2 then f else if 1/2 < r then f + 1 else if 2 ∣ f then f else f + 1

/-- `round(score, 2)`. -/
def round2 (x : ℚ) : ℚ := (pyRound (x * 100) : ℚ) / 100

/-- `SimpleSearchEngine._load_products`: hydrate records, attach the score,
silently skip IDs missing from the product store. -/
def loadProducts (st : KV) (products : List (String × ℚ)) : List Rec :=
  products.foldl (fun items pr =>
    match dget? st.store pr.1 with
    | some r => items ++ [dset r "score" (.num (round2 pr.2))]
    | none => items) []

/-- `SimpleSearchEngine._expand_with_synonyms`. -/
def expandWithSynonyms (tokens : List String) (synonyms : List (List String)) :
    List String :=
  if synonyms = [] then tokens
  else tokens.foldl (fun expanded token =>
    let tl := String.mk (token.data.map pyLower)
    match synonyms.find? (fun group =>
        tl ∈ group.map (fun w => String.mk (w.data.map pyLower))) with
    | some group =>
        group.foldl (fun e syn =>
          let sl := String.mk (syn.data.map pyLower)
          if sl ∈ e.map (fun t => String.mk (t.data.map pyLower)) then e
          else e ++ [sl]) expanded
    | none => expanded) tokens

/-- Result of `SimpleSearchEngine.search` (`took_ms` is wall-clock and not
modelled). -/
structure SearchResult where
  query : String
  total : ℕ
  items : List Rec
deriving Repr, DecidableEq

/-- `SimpleSearchEngine.search`. -/
def search (st : KV) (query : String) (limit offset : ℕ)
    (filters : List (String × JVal)) : SearchResult :=
  let sq := process query
  if sq.tokens = [] then ⟨query, 0, []⟩
  else
    let expanded := expandWithSynonyms sq.tokens st.synonyms
    let m0 := searchInvertedIndex st expanded
    let m1 :=
      if m0.length < limit ∧ sq.variants ≠ [] then
        sq.variants.foldl (fun m variant =>
          let vtoks := tokenize variant
          if vtoks ≠ [] then
            mergeFallback m (searchInvertedIndex st vtoks) (9/10)
          else m) m0
      else m0
    let m2 :=
      if m1.length < limit then
        mergeFallback m1 (searchNgramIndex st sq.tokens) (1/2)
      else m1
    let sorted := stableSort (fun a b => decide (b.2 ≤ a.2)) m2
    let filtered := applyFilters st sorted filters
    let paginated := (filtered.drop offset).take limit
    ⟨query, filtered.length, loadProducts st paginated⟩

/-! ### API search endpoint (`api/main.py`, `search`) -/

/-- Filter dict built by the `/api/v1/search` handler. Note the keys it
writes: `min_price` / `max_price` (not the `price_min` / `price_max` the
engine reads). -/
def apiFilters (minPrice maxPrice : Option ℚ) (inStock : Option Bool)
    (category : Option String) : List (String × JVal) :=
  (match minPrice with | some v => [("min_price", JVal.num v)] | none => []) ++
  (match maxPrice with | some v => [("max_price", JVal.num v)] | none => []) ++
  (match inStock with | some v => [("in_stock", JVal.b v)] | none => []) ++
  (match category with
   | some c => if c ≠ "" then [("category", JVal.s c)] else []
   | none => [])

/-- The `/api/v1/search` handler's call into the engine (offset defaults
to 0). -/
def apiSearch (st : KV) (q : String) (limit : ℕ) (minPrice maxPrice : Option ℚ)
    (inStock : Option Bool) (category : Option String) : SearchResult :=
  search st q limit 0 (apiFilters minPrice maxPrice inStock category)

/-! ### Product model (`core/models.py`) -/

/-- The `Product` dataclass fields the indexer consumes. -/
structure Product where
  id : String
  name : String
  url : String
  description : Option String := none
  image : Option String := none
  price : ℚ := 0
  oldPrice : Option ℚ := none
  inStock : Bool := true
  category : Option String := none
  brand : Option String := none
  vendorCode : Option String := none
  params : List (String × String) := []
deriving Repr, DecidableEq

/-- `Product.__post_init__`: the discount is computed when `old_price` and
`price` are truthy (non-`None`, non-zero) and `old_price > price`. -/
def postInitDiscount (price : ℚ) (oldPrice : Option ℚ) : Option ℤ :=
  match oldPrice with
  | some op =>
      if op ≠ 0 ∧ price ≠ 0 ∧ price < op
      then some (pyRound ((1 - price / op) * 100))
      else none
  | none => none

/-! ### Indexer (`indexer_simple.py`) -/

/-- The JSON record `SimpleIndexer.index_products` writes for one product
(`description or ""`; `params` truthiness collapses to the mapping itself). -/
def toRecord (p : Product) : Rec :=
  [("id", .s p.id), ("name", .s p.name),
   ("description", .s (p.description.getD "")),
   ("url", .s p.url),
   ("image", match p.image with | some v => .s v | none => .null),
   ("price", .num p.price),
   ("old_price", match p.oldPrice with | some v => .num v | none => .null),
   ("in_stock", .b p.inStock),
   ("category", match p.category with | some v => .s v | none => .null),
   ("brand", match p.brand with | some v => .s v | none => .null),
   ("vendor_code", match p.vendorCode with | some v => .s v | none => .null),
   ("params", .sdict p.params)]

/-- One weighted field pass of `SimpleIndexer._extract_tokens`. -/
def addTokens (m : List (String × ℚ)) (text : String) (w : ℚ) :
    List (String × ℚ) :=
  (process text).tokens.foldl (fun m t => dset m t (dgetD m t 0 + w)) m

/-- `SimpleIndexer._extract_tokens`: token-to-score dict with weights
name 3.0, description 1.0 (first 500 chars), brand 2.0, category 1.5,
vendor_code 3.0, each truthy parameter value 2.0. -/
def extractTokens (p : Product) : List (String × ℚ) :=
  let m : List (String × ℚ) := []
  let m := if p.name ≠ "" then addTokens m p.name 3 else m
  let m := match p.description with
    | some d => if d ≠ "" then addTokens m (String.mk (d.data.take 500)) 1 else m
    | none => m
  let m := match p.brand with
    | some b => if b ≠ "" then addTokens m b 2 else m
    | none => m
  let m := match p.category with
    | some c => if c ≠ "" then addTokens m c (3/2) else m
    | none => m
  let m := match p.vendorCode with
    | some v => if v ≠ "" then addTokens m v 3 else m
    | none => m
  p.params.foldl (fun m kv =>
    if kv.2 ≠ "" then addTokens m kv.2 2 else m) m

/-- `products_data`: records keyed by product ID; a later duplicate ID
overwrites the earlier record. -/
def buildStore (ps : List Product) : List (String × Rec) :=
  ps.foldl (fun m p => dset m p.id (toRecord p)) []

/-- Nested dict assignment `inverted_index[token][pid] = score`. -/
def invSet (inv : List (String × List (String × ℚ))) (t pid : String) (s : ℚ) :
    List (String × List (String × ℚ)) :=
  dset inv t (dset (dgetD inv t []) pid s)

/-- The in-memory `inverted_index` built by `index_products`: per token and
product the score is assigned (never accumulated across duplicate IDs). -/
def buildInv (ps : List Product) : List (String × List (String × ℚ)) :=
  ps.foldl (fun inv p =>
    (extractTokens p).foldl (fun inv ts => invSet inv ts.1 p.id ts.2) inv) []

/-- The `ngram_index`: for each indexed token, each of its trigrams maps to a
set containing the token. -/
def buildNgram (ps : List Product) : List (String × List String) :=
  ps.foldl (fun ng p =>
    (extractTokens p).foldl (fun ng ts =>
      (ngrams 3 ts.1).foldl (fun ng g =>
        dset ng g (sAdd (dgetD ng g []) ts.1)) ng) ng) []

/-- The `suggest_index`: cumulative left-prefix phrases of the tokenized
normalized product name, counted per product occurrence. -/
def buildSuggest (ps : List Product) : List (String × ℚ) :=
  ps.foldl (fun sg p =>
    let nts := tokenize (normalize p.name)
    (List.range nts.length).foldl (fun sg i =>
      let phrase := joinSpaces (nts.take (i + 1))
      dset sg phrase (dgetD sg phrase 0 + 1)) sg) []

/-- `SimpleIndexer.index_products`: returns `0` untouched on an empty list;
otherwise deletes all `products:{p}:*` and `idx:{p}:*` keys and writes the
structures derived from `products`, returning `len(products)`. -/
def indexProducts (st : KV) (ps : List Product) : KV × ℕ :=
  if ps = [] then (st, 0)
  else
    ({ st with
        store := buildStore ps
        inv := buildInv ps
        ngramIdx := buildNgram ps
        suggest := buildSuggest ps }, ps.length)

/-- `SimpleIndexer.update_product_stock`: loads the record dict, assigns
`in_stock`, assigns `price` when given, writes it back; `False` and no write
when the record is absent. -/
def updateProductStock (st : KV) (pid : String) (inStock : Bool)
    (price : Option ℚ) : KV × Bool :=
  match dget? st.store pid with
  | none => (st, false)
  | some r =>
      let r := dset r "in_stock" (.b inStock)
      let r := match price with
        | some v => dset r "price" (.num v)
        | none => r
      ({ st with store := dset st.store pid r }, true)

/-! ### Feed manager (`feed/parser.py`, `FeedManager.load_feed`) -/

/-- Summary data of a successfully fetched and parsed feed. -/
structure FeedData where
  productsCount : ℕ
  categoriesCount : ℕ
  shopName : String
deriving Repr, DecidableEq

/-- Result dict of `FeedManager.load_feed`. -/
structure LoadResult where
  success : Bool
  productsCount : ℕ := 0
  categoriesCount : ℕ := 0
  error : String := ""
deriving Repr, DecidableEq

/-- `hset(key, mapping=...)`: merge fields into a hash. -/
def hsetMerge (h : List (String × String)) (fields : List (String × String)) :
    List (String × String) :=
  fields.foldl (fun h kv => dset h kv.1 kv.2) h

/-- `FeedManager.load_feed`. The fetch-and-parse outcome
(`FeedParser.load_and_parse`: non-200 response, timeout, or fatal parse
error all raise with a message) enters as an `Except` parameter; `now` is the
`datetime.utcnow().isoformat()` timestamp. Both branches write only the
`project:{p}:feed` hash. -/
def loadFeed (st : KV) (feedUrl now : String)
    (fetched : Except String FeedData) : KV × LoadResult :=
  match fetched with
  | .ok d =>
      let info := [("url", feedUrl), ("last_update", now),
        ("products_count", toString d.productsCount),
        ("categories_count", toString d.categoriesCount),
        ("shop_name", d.shopName), ("status", "success")]
      ({ st with feedStatus := hsetMerge st.feedStatus info },
       { success := true, productsCount := d.productsCount,
         categoriesCount := d.categoriesCount })
  | .error msg =>
      let info := [("url", feedUrl), ("last_update", now),
        ("status", "error"), ("error", msg)]
      ({ st with feedStatus := hsetMerge st.feedStatus info },
       { success := false, error := msg })

/-! ### Redis key/operation traces of a feed refresh

To settle what a refresh touches (in particular whether any lock key is
involved), the refresh paths are additionally modelled as traces of Redis
commands with structured keys. `RKey.render` gives the literal key string
each constructor stands for. -/

/-- The project-scoped Redis keys the code base constructs, plus the
`lock:feed:{p}` key named by the specification. -/
inductive RKey where
  | projectHash (p : String)
  | projectFeed (p : String)
  | projectProduct (p id : String)
  | projectProductIds (p : String)
  | productRec (p id : String)
  | idxInv (p t : String)
  | idxNgram (p g : String)
  | idxSuggest (p : String)
  | synonymsKey (p : String)
  | lockFeed (p : String)
deriving Repr, DecidableEq

/-- The literal Redis key string for each structured key. -/
def RKey.render : RKey → String
  | .projectHash p => "project:" ++ p
  | .projectFeed p => "project:" ++ p ++ ":feed"
  | .projectProduct p i => "project:" ++ p ++ ":product:" ++ i
  | .projectProductIds p => "project:" ++ p ++ ":product_ids"
  | .productRec p i => "products:" ++ p ++ ":" ++ i
  | .idxInv p t => "idx:" ++ p ++ ":inv:" ++ t
  | .idxNgram p g => "idx:" ++ p ++ ":ngram:" ++ g
  | .idxSuggest p => "idx:" ++ p ++ ":suggest"
  | .synonymsKey p => "synonyms:" ++ p
  | .lockFeed p => "lock:feed:" ++ p

/-- Redis commands issued by the refresh paths. `hset` records the field
names written. `setIfAbsent` is `SET key value NX EX ttl`, the
acquire-with-expiry primitive; it appears in no trace the code produces. -/
inductive KVOp where
  | keysPat (pattern : String)
  | hgetall (k : RKey)
  | hset (k : RKey) (fields : List String)
  | getK (k : RKey)
  | setK (k : RKey)
  | delK (ks : List RKey)
  | zadd (k : RKey)
  | sadd (k : RKey)
  | setIfAbsent (k : RKey) (ttlSeconds : ℕ)
deriving Repr, DecidableEq

/-- The keys a command touches. -/
def KVOp.keys : KVOp → List RKey
  | .keysPat _ => []
  | .hgetall k => [k]
  | .hset k _ => [k]
  | .getK k => [k]
  | .setK k => [k]
  | .delK ks => ks
  | .zadd k => [k]
  | .sadd k => [k]
  | .setIfAbsent k _ => [k]

/-- Is this the per-project feed lock key? -/
def isLockKey : RKey → Bool
  | .lockFeed _ => true
  | _ => false

/-- A command is lock-free when it touches no lock key and is not a
set-if-absent acquisition. -/
def lockFreeOp (op : KVOp) : Bool :=
  (op.keys.all (fun k => ¬isLockKey k)) &&
  (match op with | .setIfAbsent _ _ => false | _ => true)

/-- Every command of the trace is lock-free. -/
def lockFreeOps (ops : List KVOp) : Bool := ops.all lockFreeOp

/-- Parsed-feed payload threaded through a successful refresh: feed summary,
the IDs of the parsed product dicts (for `DataStore.save_products`), and the
converted `Product` list (for `SimpleIndexer.index_products`). -/
structure FeedPayload where
  info : FeedData
  ids : List String
  products : List Product
deriving Repr, DecidableEq

/-- Commands of `SimpleIndexer.index_products` for project `P` on state
`st`: nothing for an empty list; otherwise enumerate and delete the old
`products:{P}:*` and `idx:{P}:*` keys, then write the new structures. -/
def indexProductsOps (P : String) (st : KV) (ps : List Product) : List KVOp :=
  if ps = [] then []
  else
    [.keysPat ("products:" ++ P ++ ":*"), .keysPat ("idx:" ++ P ++ ":*")] ++
    (let olds := st.store.map (fun kv => RKey.productRec P kv.1) ++
        st.inv.map (fun kv => RKey.idxInv P kv.1) ++
        st.ngramIdx.map (fun kv => RKey.idxNgram P kv.1) ++
        (if st.suggest ≠ [] then [RKey.idxSuggest P] else []);
      if olds ≠ [] then [KVOp.delK olds] else []) ++
    (buildStore ps).map (fun kv => KVOp.setK (.productRec P kv.1)) ++
    (buildInv ps).map (fun kv => KVOp.zadd (.idxInv P kv.1)) ++
    (buildNgram ps).filterMap (fun kv =>
      if kv.2 ≠ [] then some (KVOp.sadd (.idxNgram P kv.1)) else none) ++
    (buildSuggest ps).map (fun _ => KVOp.zadd (.idxSuggest P))

/-- Commands of `DataStore.save_products` (`api/storage.py`). -/
def saveProductsOps (P : String) (ids : List String) : List KVOp :=
  ids.map (fun i => KVOp.setK (.projectProduct P i)) ++
  [KVOp.delK [.projectProductIds P]] ++
  (if ids ≠ [] then [KVOp.sadd (.projectProductIds P)] else []) ++
  [KVOp.hset (.projectHash P) ["products_count"]]

/-- Commands of `FeedManager.load_feed`: one `hset` on the feed hash in
either branch. -/
def loadFeedOps (P : String) (fetched : Except String FeedPayload) :
    List KVOp :=
  match fetched with
  | .ok _ => [KVOp.hset (.projectFeed P)
      ["url", "last_update", "products_count", "categories_count",
       "shop_name", "status"]]
  | .error _ => [KVOp.hset (.projectFeed P)
      ["url", "last_update", "status", "error"]]

/-- Commands of the per-project body of
`SimpleFeedScheduler._check_and_update_feeds`. `projectData` is the decoded
project hash; `stale` is the outcome of the `last_update`-older-than-4-hours
check (wall-clock parsing is not modelled); `fetched` is the feed
fetch-and-parse outcome. -/
def schedulerProjectOps (P : String) (st : KV)
    (projectData : List (String × String)) (stale : Bool)
    (fetched : Except String FeedPayload) : List KVOp :=
  [KVOp.hgetall (.projectHash P)] ++
  (if projectData = [] then []
   else match dget? projectData "feed_url" with
   | none => []
   | some u =>
     if u = "" then []
     else if dget? projectData "auto_update" = some "false" then []
     else
       [KVOp.hgetall (.projectFeed P)] ++
       (if ¬stale then []
        else
          [KVOp.hset (.projectFeed P)
            ["status", "progress", "message", "update_started"]] ++
          loadFeedOps P fetched ++
          (match fetched with
           | .ok payload =>
               [KVOp.hset (.projectFeed P) ["status", "progress", "message"]] ++
               saveProductsOps P payload.ids ++
               indexProductsOps P st payload.products ++
               [KVOp.hset (.projectFeed P)
                 ["status", "progress", "message", "products_count",
                  "categories_count", "last_update", "last_auto_update",
                  "auto_update_status"]]
           | .error _ =>
               [KVOp.hset (.projectFeed P)
                 ["status", "progress", "message", "last_auto_update",
                  "auto_update_status"]])))

/-- Commands of the on-demand `/api/v1/projects/{p}/feed/load` handler
(`api/main.py`): `get_project`, `update_project` with the feed URL,
`load_feed`, and on success `save_products` plus `index_products`. -/
def onDemandFeedOps (P : String) (st : KV) (projectFound : Bool)
    (fetched : Except String FeedPayload) : List KVOp :=
  [KVOp.hgetall (.projectHash P)] ++
  (if ¬projectFound then []
   else
     [KVOp.hgetall (.projectHash P), KVOp.hset (.projectHash P) ["feed_url"],
      KVOp.hgetall (.projectHash P)] ++
     loadFeedOps P fetched ++
     (match fetched with
      | .ok payload =>
          saveProductsOps P payload.ids ++ indexProductsOps P st payload.products
      | .error _ => []))

/-! ### Derived score quantities used in the claim statements -/

/-- Total posting score of `pid` under token `t` (one full `zrevrange` read). -/
def postingMass (st : KV) (t pid : String) : ℚ :=
  (((invEntries st t).filter (fun e => e.1 = pid)).map (fun e => e.2)).sum

/-- Score the n-gram fallback accumulates for `pid` from one query token:
each candidate token's posting mass weighted by the token similarity. -/
def ngramMass (st : KV) (t pid : String) : ℚ :=
  ((candidateTokens st t).map
    (fun mt => tokenSimilarity t mt * postingMass st mt pid)).sum

/-- Weight the inverted index stores for `(t, pid)` after indexing `ps`:
the weight of the last product occurrence with that ID whose token mapping
contains `t`. -/
def lastTokenWeight (ps : List Product) (t pid : String) : Option ℚ :=
  ((ps.filterMap (fun p =>
    if p.id = pid then dget? (extractTokens p) t else none)).reverse).head?

/-- Record stored for `pid` after indexing `ps`: the last occurrence wins. -/
def lastRecord (ps : List Product) (pid : String) : Option Rec :=
  ((ps.filterMap (fun p =>
    if p.id = pid then some (toRecord p) else none)).reverse).head?

/-- Nested inverted-index lookup. -/
def dget2 (inv : List (String × List (String × ℚ))) (t pid : String) :
    Option ℚ :=
  dget? (dgetD inv t []) pid

/-! ### Dict lemmas -/

theorem dget?_dset_self {κ α : Type} [DecidableEq κ] (m : List (κ × α))
    (k : κ) (v : α) : dget? (dset m k v) k = some v := by
  induction m with
  | nil => simp [dset, dget?]
  | cons p rest ih =>
      by_cases h : p.1 = k
      · simp [dset, h, dget?]
      · simp [dset, h, dget?, ih]

theorem dget?_dset_ne {κ α : Type} [DecidableEq κ] (m : List (κ × α))
    (k k' : κ) (v : α) (h : k' ≠ k) :
    dget? (dset m k v) k' = dget? m k' := by
  have h' : ¬k = k' := Ne.symm h
  induction m with
  | nil => simp [dset, dget?, h']
  | cons p rest ih =>
      by_cases hp : p.1 = k
      · subst hp
        simp [dset, dget?, h']
      · by_cases hp' : p.1 = k'
        · simp [dset, hp, dget?, hp', h]
        · simp [dset, hp, dget?, hp', ih]

theorem dget?_append {κ α : Type} [DecidableEq κ] (m l : List (κ × α))
    (k : κ) : dget? (m ++ l) k = (dget? m k).or (dget? l k) := by
  induction m with
  | nil => simp [dget?]
  | cons p rest ih =>
      by_cases h : p.1 = k
      · simp [dget?, h]
      · simp [dget?, h, ih]

theorem dgetD_dAdd {κ : Type} [DecidableEq κ] (m : List (κ × ℚ)) (k k' : κ)
    (v : ℚ) :
    dgetD (dAdd m k v) k' 0 = dgetD m k' 0 + (if k = k' then v else 0) := by
  by_cases h : k = k'
  · subst h
    simp [dAdd, dgetD, dget?_dset_self]
  · simp [dAdd, dgetD, dget?_dset_ne _ _ _ _ (Ne.symm h), h]

/-- Accumulating a posting list into a `defaultdict(float)`: the final value
at `pid` gains the sum of `f` over the entries carrying `pid`. -/
theorem dgetD_foldl_dAdd (f : String × ℚ → ℚ) (es : List (String × ℚ)) :
    ∀ (m : List (String × ℚ)) (pid : String),
    dgetD (es.foldl (fun m e => dAdd m e.1 (f e)) m) pid 0
      = dgetD m pid 0 + ((es.filter (fun e => e.1 = pid)).map f).sum := by
  induction es with
  | nil => simp
  | cons e rest ih =>
      intro m pid
      rw [List.foldl_cons, ih, dgetD_dAdd, List.filter_cons]
      by_cases h : e.1 = pid
      · simp [h]
        ring
      · simp [h]

/-! ### Retrieval characterization lemmas -/

theorem foldl_dAdd_entries (es : List (String × ℚ)) (m : List (String × ℚ))
    (pid : String) :
    dgetD (es.foldl (fun m e => dAdd m e.1 e.2) m) pid 0
      = dgetD m pid 0 + ((es.filter (fun e => e.1 = pid)).map (fun e => e.2)).sum :=
  dgetD_foldl_dAdd (fun e => e.2) es m pid

theorem foldl_dAdd_entries_sim (t mt : String) (es : List (String × ℚ))
    (m : List (String × ℚ)) (pid : String) :
    dgetD (es.foldl (fun m e => dAdd m e.1 (e.2 * tokenSimilarity t mt)) m) pid 0
      = dgetD m pid 0
        + tokenSimilarity t mt
          * ((es.filter (fun e => e.1 = pid)).map (fun e => e.2)).sum := by
  rw [dgetD_foldl_dAdd (fun e => e.2 * tokenSimilarity t mt) es m pid]
  rw [List.sum_map_mul_right, mul_comm]

theorem searchInvertedIndex_go (st : KV) (ts : List String) :
    ∀ (m : List (String × ℚ)) (pid : String),
    dgetD (ts.foldl (fun m t =>
        (invEntries st t).foldl (fun m e => dAdd m e.1 e.2) m) m) pid 0
      = dgetD m pid 0 + (ts.map (fun t => postingMass st t pid)).sum := by
  induction ts with
  | nil => simp
  | cons t rest ih =>
      intro m pid
      rw [List.foldl_cons, ih, foldl_dAdd_entries]
      simp [postingMass]
      ring

theorem searchNgramIndex_go₁ (st : KV) (t : String) (cs : List String) :
    ∀ (m : List (String × ℚ)) (pid : String),
    dgetD (cs.foldl (fun m mt =>
        (invEntries st mt).foldl (fun m e =>
          dAdd m e.1 (e.2 * tokenSimilarity t mt)) m) m) pid 0
      = dgetD m pid 0
        + (cs.map (fun mt => tokenSimilarity t mt * postingMass st mt pid)).sum := by
  induction cs with
  | nil => simp
  | cons mt rest ih =>
      intro m pid
      rw [List.foldl_cons, ih, foldl_dAdd_entries_sim]
      simp [postingMass]
      ring

theorem searchNgramIndex_go (st : KV) (ts : List String) :
    ∀ (m : List (String × ℚ)) (pid : String),
    dgetD (ts.foldl (fun m t =>
        (candidateTokens st t).foldl (fun m mt =>
          (invEntries st mt).foldl (fun m e =>
            dAdd m e.1 (e.2 * tokenSimilarity t mt)) m) m) m) pid 0
      = dgetD m pid 0 + (ts.map (fun t => ngramMass st t pid)).sum := by
  induction ts with
  | nil => simp
  | cons t rest ih =>
      intro m pid
      rw [List.foldl_cons, ih, searchNgramIndex_go₁]
      simp [ngramMass]
      ring

/-! ### Fallback-merge lemmas -/

theorem mergeFallback_cons (m : List (String × ℚ)) (e : String × ℚ)
    (rest : List (String × ℚ)) (f : ℚ) :
    mergeFallback m (e :: rest) f
      = mergeFallback (if (dget? m e.1).isSome then m else m ++ [(e.1, e.2 * f)])
          rest f := by
  simp only [mergeFallback, List.foldl_cons]

theorem mergeFallback_preserves (fb : List (String × ℚ)) :
    ∀ (m : List (String × ℚ)) (f : ℚ) (pid : String) (v : ℚ),
    dget? m pid = some v → dget? (mergeFallback m fb f) pid = some v := by
  induction fb with
  | nil => intro m f pid v h; simpa [mergeFallback] using h
  | cons e rest ih =>
      intro m f pid v h
      rw [mergeFallback_cons]
      by_cases hs : (dget? m e.1).isSome
      · rw [if_pos hs]
        exact ih m f pid v h
      · rw [if_neg hs]
        exact ih _ f pid v (by rw [dget?_append, h]; rfl)

theorem mergeFallback_adds_new (fb : List (String × ℚ)) :
    ∀ (m : List (String × ℚ)) (f : ℚ) (pid : String),
    dget? m pid = none →
    dget? (mergeFallback m fb f) pid = (dget? fb pid).map (fun v => v * f) := by
  induction fb with
  | nil => intro m f pid h; simpa [mergeFallback, dget?] using h
  | cons e rest ih =>
      intro m f pid h
      rw [mergeFallback_cons]
      by_cases he : e.1 = pid
      · subst he
        have hs : ¬(dget? m e.1).isSome := by rw [h]; simp
        rw [if_neg hs]
        have hnew : dget? (m ++ [(e.1, e.2 * f)]) e.1 = some (e.2 * f) := by
          rw [dget?_append, h]
          simp [dget?]
        rw [mergeFallback_preserves rest _ f e.1 _ hnew]
        simp [dget?]
      · have hrest : dget? (e :: rest) pid = dget? rest pid := by
          simp [dget?, he]
        rw [hrest]
        by_cases hs : (dget? m e.1).isSome
        · rw [if_pos hs]
          exact ih m f pid h
        · rw [if_neg hs]
          refine ih _ f pid ?_
          rw [dget?_append, h]
          simp [dget?, he]

/-! ### Hydration and filter lemmas -/

theorem mem_loadProducts_go (st : KV) (prs : List (String × ℚ)) :
    ∀ (acc : List Rec) (item : Rec),
    item ∈ prs.foldl (fun items pr =>
        match dget? st.store pr.1 with
        | some r => items ++ [dset r "score" (.num (round2 pr.2))]
        | none => items) acc →
    item ∈ acc ∨ ∃ pid sc r, dget? st.store pid = some r ∧
      item = dset r "score" (.num (round2 sc)) := by
  induction prs with
  | nil => intro acc item h; exact Or.inl h
  | cons pr rest ih =>
      intro acc item h
      rw [List.foldl_cons] at h
      rcases hst : dget? st.store pr.1 with _ | r
      · rw [hst] at h
        exact ih acc item h
      · rw [hst] at h
        rcases ih _ item h with hacc | hex
        · rcases List.mem_append.mp hacc with h1 | h2
          · exact Or.inl h1
          · right
            refine ⟨pr.1, pr.2, r, hst, ?_⟩
            simpa using h2
        · exact Or.inr hex

/-- Everything `_load_products` returns is a store record with the score
field attached; missing IDs contribute nothing. -/
theorem mem_loadProducts (st : KV) (prs : List (String × ℚ)) (item : Rec)
    (h : item ∈ loadProducts st prs) :
    ∃ pid sc r, dget? st.store pid = some r ∧
      item = dset r "score" (.num (round2 sc)) := by
  rcases mem_loadProducts_go st prs [] item h with hacc | hex
  · simp at hacc
  · exact hex

/-- With at least one filter, `_apply_filters` keeps only entries whose
record is present in the product store. -/
theorem applyFilters_mem_isSome (st : KV) (l : List (String × ℚ))
    (filters : List (String × JVal)) (hf : filters ≠ [])
    (pr : String × ℚ) (h : pr ∈ applyFilters st l filters) :
    (dget? st.store pr.1).isSome := by
  unfold applyFilters at h
  rw [if_neg hf] at h
  have := List.of_mem_filter h
  rcases hst : dget? st.store pr.1 with _ | r
  · rw [hst] at this
    simp at this
  · rfl

/-! ### Indexer lemmas -/

theorem foldl_preserve {α β : Type} {P : β → Prop} (step : β → α → β)
    (hstep : ∀ b a, P b → P (step b a)) :
    ∀ (l : List α) (b : β), P b → P (l.foldl step b) := by
  intro l
  induction l with
  | nil => intro b h; exact h
  | cons a rest ih => intro b h; exact ih _ (hstep b a h)

theorem dget?_eq_none_of_not_mem_keys {κ α : Type} [DecidableEq κ]
    (m : List (κ × α)) (k : κ) (h : k ∉ m.map Prod.fst) :
    dget? m k = none := by
  induction m with
  | nil => rfl
  | cons p rest ih =>
      simp only [List.map_cons, List.mem_cons] at h
      push_neg at h
      have h1 : ¬p.1 = k := fun hh => h.1 hh.symm
      simp [dget?, h1, ih h.2]

theorem keys_dset {κ α : Type} [DecidableEq κ] (m : List (κ × α)) (k : κ)
    (v : α) :
    (dset m k v).map Prod.fst
      = if k ∈ m.map Prod.fst then m.map Prod.fst else m.map Prod.fst ++ [k] := by
  induction m with
  | nil => simp [dset]
  | cons p rest ih =>
      by_cases hp : p.1 = k
      · simp [dset, hp]
      · have hkp : ¬k = p.1 := fun hh => hp hh.symm
        simp only [dset, if_neg hp, List.map_cons, ih, List.mem_cons, hkp,
          false_or]
        by_cases hk : k ∈ rest.map Prod.fst
        · simp [hk]
        · simp [hk]

theorem nodup_keys_dset {κ α : Type} [DecidableEq κ] (m : List (κ × α))
    (k : κ) (v : α) (h : (m.map Prod.fst).Nodup) :
    ((dset m k v).map Prod.fst).Nodup := by
  rw [keys_dset]
  by_cases hk : k ∈ m.map Prod.fst
  · simpa [hk] using h
  · simp only [if_neg hk]
    simp [List.nodup_append, h, hk, List.disjoint_singleton]

theorem nodup_keys_addTokens (m : List (String × ℚ)) (text : String) (w : ℚ)
    (h : (m.map Prod.fst).Nodup) :
    ((addTokens m text w).map Prod.fst).Nodup := by
  unfold addTokens
  exact foldl_preserve _ (fun m t hm => nodup_keys_dset m t _ hm) _ m h

theorem nodup_keys_foldl_params (l : List (String × String)) :
    ∀ (m : List (String × ℚ)), (m.map Prod.fst).Nodup →
    ((l.foldl (fun m kv => if kv.2 ≠ "" then addTokens m kv.2 2 else m)
      m).map Prod.fst).Nodup := by
  induction l with
  | nil => intro m h; exact h
  | cons kv rest ih =>
      intro m h
      rw [List.foldl_cons]
      refine ih _ ?_
      split
      · exact nodup_keys_addTokens _ _ _ h
      · exact h

set_option maxHeartbeats 2000000 in
/-- `_extract_tokens` is a dict: its token keys are pairwise distinct. -/
theorem extractTokens_nodupKeys (p : Product) :
    ((extractTokens p).map Prod.fst).Nodup := by
  unfold extractTokens
  dsimp only
  apply nodup_keys_foldl_params
  repeat' split
  all_goals
    repeat
      first
      | exact List.nodup_nil
      | simp only [List.map_nil]
      | apply nodup_keys_addTokens

theorem dget2_invSet_self (inv : List (String × List (String × ℚ)))
    (t pid : String) (s : ℚ) : dget2 (invSet inv t pid s) t pid = some s := by
  unfold dget2 invSet dgetD
  rw [dget?_dset_self]
  simp [dget?_dset_self]

theorem dget2_invSet_ne_token (inv : List (String × List (String × ℚ)))
    (t t' pid pid' : String) (s : ℚ) (h : t' ≠ t) :
    dget2 (invSet inv t pid s) t' pid' = dget2 inv t' pid' := by
  unfold dget2 invSet dgetD
  rw [dget?_dset_ne _ _ _ _ h]

theorem dget2_invSet_ne_pid (inv : List (String × List (String × ℚ)))
    (t pid pid' : String) (s : ℚ) (h : pid' ≠ pid) :
    dget2 (invSet inv t pid s) t pid' = dget2 inv t pid' := by
  unfold dget2 invSet dgetD
  rw [dget?_dset_self]
  simp [dget?_dset_ne _ _ _ _ h]

/-- Writing one product's token dict into the in-memory inverted index:
only the pair `(token, that product's ID)` changes, to the dict's value. -/
theorem foldl_invSet_lookup (L : List (String × ℚ))
    (hL : (L.map Prod.fst).Nodup) (pid₀ : String) :
    ∀ (inv : List (String × List (String × ℚ))) (t pid : String),
    dget2 (L.foldl (fun inv ts => invSet inv ts.1 pid₀ ts.2) inv) t pid
      = if pid = pid₀ ∧ (dget? L t).isSome then dget? L t
        else dget2 inv t pid := by
  induction L with
  | nil => intro inv t pid; simp [dget?]
  | cons e rest ih =>
      intro inv t pid
      simp only [List.map_cons, List.nodup_cons] at hL
      rw [List.foldl_cons, ih hL.2]
      by_cases ht : t = e.1
      · subst ht
        have hrest : dget? rest e.1 = none :=
          dget?_eq_none_of_not_mem_keys rest e.1 hL.1
        rw [hrest]
        simp only [Option.isSome_none, Bool.false_eq_true, and_false, if_false]
        by_cases hpid : pid = pid₀
        · subst hpid
          rw [dget2_invSet_self]
          simp [dget?]
        · rw [dget2_invSet_ne_pid _ _ _ _ _ hpid]
          simp [dget?, hpid]
      · have h1 : ¬e.1 = t := fun hh => ht hh.symm
        have hcons : dget? (e :: rest) t = dget? rest t := by
          simp [dget?, h1]
        rw [hcons, dget2_invSet_ne_token _ _ _ _ _ _ ht]

/-- Indexing a product list: the weight stored for `(t, pid)` is the one of
the last occurrence with that ID whose token dict contains `t` (assignment,
never accumulation). -/
theorem buildInv_go (ps : List Product) :
    ∀ (inv : List (String × List (String × ℚ))) (t pid : String),
    dget2 (ps.foldl (fun inv p =>
        (extractTokens p).foldl (fun inv ts => invSet inv ts.1 p.id ts.2) inv)
      inv) t pid
      = (((ps.filterMap (fun p =>
            if p.id = pid then dget? (extractTokens p) t else none)).reverse).head?).or
          (dget2 inv t pid) := by
  induction ps with
  | nil => intro inv t pid; simp
  | cons p rest ih =>
      intro inv t pid
      rw [List.foldl_cons, ih, foldl_invSet_lookup _ (extractTokens_nodupKeys p)]
      by_cases hid : p.id = pid
      · rcases hv : dget? (extractTokens p) t with _ | s
        · have hfp : (if p.id = pid then dget? (extractTokens p) t else none)
              = none := by rw [if_pos hid, hv]
          rw [@List.filterMap_cons_none Product ℚ
            (fun q : Product => if q.id = pid then dget? (extractTokens q) t else none)
            p rest hfp]
          simp
        · have hfp : (if p.id = pid then dget? (extractTokens p) t else none)
              = some s := by rw [if_pos hid, hv]
          have hc : pid = p.id ∧ (Option.some s).isSome = true := ⟨hid.symm, rfl⟩
          rw [@List.filterMap_cons_some Product ℚ
            (fun q : Product => if q.id = pid then dget? (extractTokens q) t else none)
            p rest s hfp, if_pos hc, List.reverse_cons,
            List.head?_append, Option.or_assoc]
          rfl
      · have hfp : (if p.id = pid then dget? (extractTokens p) t else none)
            = none := if_neg hid
        have hc : ¬(pid = p.id ∧ (dget? (extractTokens p) t).isSome = true) := by
          rintro ⟨h1, _⟩
          exact hid h1.symm
        rw [@List.filterMap_cons_none Product ℚ
          (fun q : Product => if q.id = pid then dget? (extractTokens q) t else none)
          p rest hfp, if_neg hc]

/-- Store writes: the record kept for an ID is that of its last occurrence. -/
theorem buildStore_go (ps : List Product) :
    ∀ (m : List (String × Rec)) (pid : String),
    dget? (ps.foldl (fun m p => dset m p.id (toRecord p)) m) pid
      = (((ps.filterMap (fun p =>
          if p.id = pid then some (toRecord p) else none)).reverse).head?).or
          (dget? m pid) := by
  induction ps with
  | nil => intro m pid; simp
  | cons p rest ih =>
      intro m pid
      rw [List.foldl_cons, ih]
      by_cases hid : p.id = pid
      · have hfp : (if p.id = pid then some (toRecord p) else none)
            = some (toRecord p) := if_pos hid
        rw [@List.filterMap_cons_some Product Rec
          (fun q : Product => if q.id = pid then some (toRecord q) else none)
          p rest (toRecord p) hfp, List.reverse_cons, List.head?_append,
          Option.or_assoc, hid, dget?_dset_self]
        rfl
      · have hfp : (if p.id = pid then some (toRecord p) else none) = none :=
          if_neg hid
        rw [@List.filterMap_cons_none Product Rec
          (fun q : Product => if q.id = pid then some (toRecord q) else none)
          p rest hfp, dget?_dset_ne _ _ _ _ (fun hh => hid hh.symm)]

/-! ### Concrete fixtures -/

/-- A product record priced 100, in stock. -/
def recPhone : Rec :=
  [("id", .s "p1"), ("name", .s "phone"), ("price", .num 100),
   ("in_stock", .b true)]

/-- Project state with one product indexed under token `phone`. -/
def stPhone : KV :=
  { inv := [("phone", [("p1", 3)])], ngramIdx := [], store := [("p1", recPhone)],
    suggest := [], feedStatus := [], synonyms := [] }

/-- Record of the product named `abcde`. -/
def recAbcde : Rec :=
  [("id", .s "p1"), ("name", .s "abcde"), ("price", .num 10),
   ("in_stock", .b true)]

/-- State where `p1` is indexed under token `abcde` with weight 3, with its
trigrams in the n-gram index: reachable by indexing that one product. -/
def stAbcde : KV :=
  { inv := [("abcde", [("p1", 3)])]
    ngramIdx := [("abc", ["abcde"]), ("bcd", ["abcde"]), ("cde", ["abcde"])]
    store := [("p1", recAbcde)]
    suggest := [], feedStatus := [], synonyms := [] }

/-- State whose inverted index scores an ID absent from the product store
(the mid-reindex window of §5 of the specification). -/
def stGhost : KV :=
  { inv := [("apple", [("ghost", 3)])], ngramIdx := [], store := [],
    suggest := [], feedStatus := [], synonyms := [] }

/-- State with postings for token `apple`. -/
def stApple : KV :=
  { inv := [("apple", [("p", 3)])], ngramIdx := [], store := [],
    suggest := [], feedStatus := [], synonyms := [] }

/-- First occurrence of duplicate ID `a`: name `red`. -/
def pRed : Product := { id := "a", name := "red", url := "" }

/-- Second occurrence of duplicate ID `a`: name `blue`. -/
def pBlue : Product := { id := "a", name := "blue", url := "" }

/-- Non-empty indexed state (one product under token `red`). -/
def stOld : KV :=
  { inv := [("red", [("a", 3)])], ngramIdx := [("red", ["red"])],
    store := [("a", toRecord pRed)], suggest := [("red", 1)],
    feedStatus := [], synonyms := [] }

/-- The empty per-project state. -/
def stEmpty : KV :=
  { inv := [], ngramIdx := [], store := [], suggest := [],
    feedStatus := [], synonyms := [] }

/-- A stored record carrying a stale `discount_percent` field. -/
def recStale : Rec :=
  [("id", .s "p1"), ("price", .num 100), ("old_price", .num 200),
   ("discount_percent", .num 50), ("in_stock", .b false)]

/-- State holding `recStale` under ID `p1`. -/
def stStale : KV :=
  { inv := [], ngramIdx := [], store := [("p1", recStale)], suggest := [],
    feedStatus := [], synonyms := [] }

/-! ### Claims -/

unseal Rat.mul Rat.add Rat.sub Rat.inv in
/-- **C1.** The spec requires price bounds from `filters` to be applied and
`min_price > max_price` to yield an empty result. The API handler writes the
filter keys `min_price` / `max_price` while the engine reads `price_min` /
`price_max`, so price bounds are silently ignored: searching with
`min_price = 200` (and even `min_price = 200 > max_price = 50`) still
returns the item priced 100 and `total = 1`. -/
theorem price_filter_keys_ignored :
    (apiSearch stPhone "phone" 10 (some 200) none none none).total = 1
    ∧ dget? ((apiSearch stPhone "phone" 10 (some 200) none none
        none).items.headD []) "price" = some (.num 100)
    ∧ (apiSearch stPhone "phone" 10 (some 200) (some 50) none none).total = 1
    ∧ (100 : ℚ) < 200 := by
  refine ⟨by decide, by decide, by decide, by norm_num⟩

unseal Rat.mul Rat.add Rat.sub Rat.inv in
/-- **C2 (counterexample).** With one product of raw weight 3 indexed under
`abcde` and query token `abcd` (Jaccard similarity 2/3), the n-gram fallback
yields a final score of 1 = 3 × (2/3) × 0.5, not the 2 = 3 × (2/3) the
claim's Jaccard-only factor would give. -/
theorem ngram_factor_counterexample :
    tokenSimilarity "abcd" "abcde" = 2/3
    ∧ (search stAbcde "abcd" 10 0 []).total = 1
    ∧ dget? ((search stAbcde "abcd" 10 0 []).items.headD []) "score"
        = some (.num 1)
    ∧ (3 : ℚ) * (2/3) = 2
    ∧ (1 : ℚ) ≠ 2 := by
  refine ⟨by decide, by decide, by decide, by norm_num, by norm_num⟩

/-- **C2 (amended).** The n-gram fallback accumulates, per query token and
candidate token `t′`, posting score × Jaccard similarity; the merge into the
primary score map multiplies by a further 0.5 and never overwrites an
existing entry — so the effective factor for a fallback-only product is
Jaccard × 0.5 and a fallback match never outranks a primary match. -/
theorem ngram_fallback_half_jaccard (st : KV) (ts : List String)
    (m : List (String × ℚ)) (pid : String) :
    dgetD (searchNgramIndex st ts) pid 0
        = (ts.map (fun t => ngramMass st t pid)).sum
    ∧ (dget? m pid = none →
        dget? (mergeFallback m (searchNgramIndex st ts) (1/2)) pid
          = (dget? (searchNgramIndex st ts) pid).map (fun v => v * (1/2)))
    ∧ (∀ v, dget? m pid = some v →
        dget? (mergeFallback m (searchNgramIndex st ts) (1/2)) pid = some v) := by
  refine ⟨?_, ?_, ?_⟩
  · have h := searchNgramIndex_go st ts [] pid
    simpa [searchNgramIndex, dgetD, dget?] using h
  · intro h
    exact mergeFallback_adds_new _ _ _ _ h
  · intro v h
    exact mergeFallback_preserves _ _ _ _ _ h

/-- Witness for the amended C2 theorem at the concrete fixture. -/
theorem ngram_fallback_half_jaccard_witness :
    dget? ([] : List (String × ℚ)) "p1" = none
    ∧ dget? (mergeFallback [] (searchNgramIndex stAbcde ["abcd"]) (1/2)) "p1"
        = (dget? (searchNgramIndex stAbcde ["abcd"]) "p1").map
            (fun v => v * (1/2)) :=
  ⟨rfl, (ngram_fallback_half_jaccard stAbcde ["abcd"] [] "p1").2.1 rfl⟩

/-- **C3 (counterexample).** `index_products` with an empty product list
returns 0 without deleting anything: the previously indexed product record
and index keys survive, contradicting the claimed full replacement. -/
theorem empty_feed_no_replacement :
    indexProducts stOld [] = (stOld, 0)
    ∧ dget? stOld.store "a" = some (toRecord pRed)
    ∧ stOld.inv ≠ [] := by
  refine ⟨rfl, by decide, by decide⟩

/-- **C3 (amended).** For a non-empty product list, `index_products`
replaces all product records and index keys with exactly the structures
derived from the given products (independent of the previous state), leaves
the feed status and synonyms untouched, and returns the list length; for
the empty list it returns 0 and leaves every key unchanged. -/
theorem index_products_replacement (st st' : KV) (ps : List Product) :
    (ps = [] → indexProducts st ps = (st, 0))
    ∧ (ps ≠ [] →
        (indexProducts st ps).1.store = (indexProducts st' ps).1.store
        ∧ (indexProducts st ps).1.inv = (indexProducts st' ps).1.inv
        ∧ (indexProducts st ps).1.ngramIdx = (indexProducts st' ps).1.ngramIdx
        ∧ (indexProducts st ps).1.suggest = (indexProducts st' ps).1.suggest
        ∧ (indexProducts st ps).1.feedStatus = st.feedStatus
        ∧ (indexProducts st ps).1.synonyms = st.synonyms
        ∧ (indexProducts st ps).2 = ps.length) := by
  constructor
  · intro h
    simp [indexProducts, h]
  · intro h
    simp [indexProducts, h]

/-- Witness for the amended C3 theorem: the empty list leaves `stOld`
unchanged, and indexing `[pRed]` yields a state independent of the prior
one. -/
theorem index_products_replacement_witness :
    indexProducts stOld [] = (stOld, 0)
    ∧ ((indexProducts stOld [pRed]).1.store
          = (indexProducts stEmpty [pRed]).1.store
        ∧ (indexProducts stOld [pRed]).1.inv
            = (indexProducts stEmpty [pRed]).1.inv
        ∧ (indexProducts stOld [pRed]).1.ngramIdx
            = (indexProducts stEmpty [pRed]).1.ngramIdx
        ∧ (indexProducts stOld [pRed]).1.suggest
            = (indexProducts stEmpty [pRed]).1.suggest
        ∧ (indexProducts stOld [pRed]).1.feedStatus = stOld.feedStatus
        ∧ (indexProducts stOld [pRed]).1.synonyms = stOld.synonyms
        ∧ (indexProducts stOld [pRed]).2 = [pRed].length) :=
  ⟨(index_products_replacement stOld stOld []).1 rfl,
   (index_products_replacement stOld stEmpty [pRed]).2 (by decide)⟩

unseal Rat.mul Rat.add Rat.sub Rat.inv in
/-- **C4 (counterexample).** Two products share ID `a`; the first is named
`red`, the last `blue`. After indexing, token `red` still maps `a` to
weight 3 although the last occurrence's token mapping has no `red` at all —
the index is not exactly that of the last occurrence. -/
theorem duplicate_id_stale_token :
    dget2 (buildInv [pRed, pBlue]) "red" "a" = some 3
    ∧ dget? (extractTokens pBlue) "red" = none
    ∧ dget? (buildStore [pRed, pBlue]) "a" = some (toRecord pBlue) := by
  refine ⟨by decide, by decide, by decide⟩

/-- **C4 (amended).** For duplicate IDs the stored record is the last
occurrence's, and each token's stored weight is the weight from the *last
occurrence whose token mapping contains that token* — an assignment, never
an accumulation; tokens emitted only by earlier occurrences keep their
earlier weight. -/
theorem index_weights_last_occurrence (ps : List Product) (t pid : String) :
    dget? (buildStore ps) pid = lastRecord ps pid
    ∧ dget2 (buildInv ps) t pid = lastTokenWeight ps t pid := by
  constructor
  · have h := buildStore_go ps [] pid
    simpa [buildStore, lastRecord, dget?] using h
  · have h := buildInv_go ps [] t pid
    simpa [buildInv, lastTokenWeight, dget2, dgetD, dget?] using h

unseal Rat.mul Rat.add Rat.sub Rat.inv in
/-- **C5 (counterexample).** `tokenize` appends the surface form once per
occurrence with no duplicate check (only hyphen-derived additions are
deduplicated), and retrieval then sums the duplicate's postings twice:
query `apple apple` scores 6 where the claim's once-only reading gives 3. -/
theorem duplicate_token_counterexample :
    tokenize "apple apple" = ["apple", "apple"]
    ∧ ¬(tokenize "apple apple").Nodup
    ∧ dgetD (searchInvertedIndex stApple (tokenize "apple apple")) "p" 0 = 6
    ∧ postingMass stApple "apple" "p" = 3 := by
  refine ⟨by decide, by decide, by decide, by decide⟩

/-- **C5 (amended).** During retrieval every occurrence of a token in the
expanded list contributes its posting scores once, so a product's
accumulated score is the sum over token occurrences (counting
multiplicity); the token list itself is not globally deduplicated. -/
theorem retrieval_sums_per_occurrence (st : KV) (ts : List String)
    (pid : String) :
    dgetD (searchInvertedIndex st ts) pid 0
      = (ts.map (fun t => postingMass st t pid)).sum := by
  have h := searchInvertedIndex_go st ts [] pid
  simpa [searchInvertedIndex, dgetD, dget?] using h

unseal Rat.mul Rat.add Rat.sub Rat.inv in
/-- **C6 (counterexample).** With no filters supplied, `_apply_filters`
returns early and scored IDs are never checked against the product store:
a scored ID missing from the store is counted in `total` (= 1) although it
is dropped at hydration and `items` is empty. -/
theorem hydrate_miss_total_counterexample :
    (search stGhost "apple" 10 0 []).total = 1
    ∧ (search stGhost "apple" 10 0 []).items = []
    ∧ dget? stGhost.store "ghost" = none := by
  refine ⟨by decide, by decide, by decide⟩

/-- **C6 (amended).** A scored ID whose record is absent from the product
store never appears in `items` and raises no error — hydration silently
drops it — and it is excluded before `total` is computed whenever at least
one filter is supplied; with no filters, `total` counts it. -/
theorem hydrate_miss_dropped (st : KV) (q : String) (limit offset : ℕ)
    (filters : List (String × JVal)) (item : Rec) (l : List (String × ℚ))
    (pr : String × ℚ) :
    (item ∈ (search st q limit offset filters).items →
      ∃ pid sc r, dget? st.store pid = some r
        ∧ item = dset r "score" (.num (round2 sc)))
    ∧ (filters ≠ [] → pr ∈ applyFilters st l filters →
        (dget? st.store pr.1).isSome) := by
  constructor
  · intro hmem
    unfold search at hmem
    dsimp only at hmem
    by_cases htok : (process q).tokens = []
    · rw [if_pos htok] at hmem
      simp at hmem
    · rw [if_neg htok] at hmem
      exact mem_loadProducts st _ item hmem
  · intro hf hmem
    exact applyFilters_mem_isSome st l filters hf pr hmem

unseal Rat.mul Rat.add Rat.sub Rat.inv in
/-- Witness for the amended C6 theorem: the item returned for `phone` is a
hydrated store record, and the filtered entry's record is present. -/
theorem hydrate_miss_dropped_witness :
    (∃ pid sc r, dget? stPhone.store pid = some r
        ∧ dset recPhone "score" (.num 3)
            = dset r "score" (.num (round2 sc)))
    ∧ (dget? stPhone.store "p1").isSome :=
  ⟨(hydrate_miss_dropped stPhone "phone" 10 0 [] (dset recPhone "score" (.num 3))
      [("p1", 3)] ("p1", 3)).1 (by decide),
   (hydrate_miss_dropped stPhone "phone" 10 0 [("in_stock", .b true)]
      [] [("p1", 3)] ("p1", 3)).2 (by decide) (by decide)⟩

unseal Rat.mul Rat.add Rat.sub Rat.inv in
/-- **C7 (counterexample).** `__post_init__` guards the discount with Python
truthiness, not positivity: a negative price −1 with `old_price = 100` is
truthy and `100 > −1`, so `discount_percent = 101` is set although
`0 < price` fails — the claimed iff is wrong for negative prices. -/
theorem negative_price_discount :
    postInitDiscount (-1) (some 100) = some 101
    ∧ ¬(0 < (-1 : ℚ)) := by
  refine ⟨by decide, by norm_num⟩

/-- **C7 (amended).** `discount_percent` is set iff `old_price` is non-null
and non-zero, `price` is non-zero, and `old_price > price`; when set it
equals `round((1 − price/old_price) × 100)` (Python's half-to-even
rounding). For non-negative prices this coincides with the claimed
`0 < price < old_price` condition. -/
theorem discount_truthiness_condition (price op : ℚ) :
    ((postInitDiscount price (some op)).isSome
        ↔ op ≠ 0 ∧ price ≠ 0 ∧ price < op)
    ∧ (0 < price → price < op →
        postInitDiscount price (some op)
          = some (pyRound ((1 - price / op) * 100)))
    ∧ postInitDiscount price none = none := by
  refine ⟨?_, ?_, rfl⟩
  · unfold postInitDiscount
    dsimp only
    split
    · simp_all
    · simp_all
  · intro h1 h2
    unfold postInitDiscount
    dsimp only
    rw [if_pos ⟨ne_of_gt (lt_trans h1 h2), ne_of_gt h1, h2⟩]

unseal Rat.mul Rat.add Rat.sub Rat.inv in
/-- Witness for the amended C7 theorem at price 50, old price 100. -/
theorem discount_truthiness_condition_witness :
    (0 : ℚ) < 50 ∧ (50 : ℚ) < 100
    ∧ postInitDiscount 50 (some 100)
        = some (pyRound ((1 - 50 / 100) * 100)) :=
  ⟨by norm_num, by norm_num,
   (discount_truthiness_condition 50 100).2.1 (by norm_num) (by norm_num)⟩

/-- **C8.** On every feed-load failure (the fetch/parse raising with a
message), `load_feed` returns `success = false` with the message, writes
`status = error` and the message onto the project's feed-status hash, and
leaves every product record and index structure untouched. -/
theorem load_feed_failure_preserves_index (st : KV) (url now msg : String) :
    (loadFeed st url now (.error msg)).2.success = false
    ∧ (loadFeed st url now (.error msg)).2.error = msg
    ∧ (loadFeed st url now (.error msg)).1.store = st.store
    ∧ (loadFeed st url now (.error msg)).1.inv = st.inv
    ∧ (loadFeed st url now (.error msg)).1.ngramIdx = st.ngramIdx
    ∧ (loadFeed st url now (.error msg)).1.suggest = st.suggest
    ∧ (loadFeed st url now (.error msg)).1.synonyms = st.synonyms
    ∧ dget? (loadFeed st url now (.error msg)).1.feedStatus "status"
        = some "error"
    ∧ dget? (loadFeed st url now (.error msg)).1.feedStatus "error"
        = some msg := by
  refine ⟨rfl, rfl, rfl, rfl, rfl, rfl, rfl, ?_, ?_⟩
  · show dget? (hsetMerge st.feedStatus _) "status" = some "error"
    unfold hsetMerge
    simp only [List.foldl_cons, List.foldl_nil]
    rw [dget?_dset_ne _ _ _ _ (by decide), dget?_dset_self]
  · show dget? (hsetMerge st.feedStatus _) "error" = some msg
    unfold hsetMerge
    simp only [List.foldl_cons, List.foldl_nil]
    rw [dget?_dset_self]

/-! ### Lock-freeness of the refresh traces -/

theorem lockFreeOps_nil : lockFreeOps [] = true := rfl

theorem lockFreeOps_append_true (a b : List KVOp) (h1 : lockFreeOps a = true)
    (h2 : lockFreeOps b = true) : lockFreeOps (a ++ b) = true := by
  unfold lockFreeOps at *
  rw [List.all_append, h1, h2]
  rfl

theorem lockFreeOps_cons_true (op : KVOp) (ops : List KVOp)
    (h1 : lockFreeOp op = true) (h2 : lockFreeOps ops = true) :
    lockFreeOps (op :: ops) = true := by
  unfold lockFreeOps at *
  rw [List.all_cons, h1, h2]
  rfl

theorem lockFreeOps_map_true {α : Type} (l : List α) (f : α → KVOp)
    (h : ∀ a, lockFreeOp (f a) = true) : lockFreeOps (l.map f) = true := by
  rw [lockFreeOps]
  refine List.all_eq_true.mpr (fun op hop => ?_)
  rcases List.mem_map.mp hop with ⟨a, _, rfl⟩
  exact h a

theorem lockFreeOps_filterMap_true {α : Type} (l : List α)
    (f : α → Option KVOp) (h : ∀ a op, f a = some op → lockFreeOp op = true) :
    lockFreeOps (l.filterMap f) = true := by
  rw [lockFreeOps]
  refine List.all_eq_true.mpr (fun op hop => ?_)
  rcases List.mem_filterMap.mp hop with ⟨a, _, hfa⟩
  exact h a op hfa

theorem nonLockKeys_append (a b : List RKey)
    (h1 : a.all (fun k => ¬isLockKey k) = true)
    (h2 : b.all (fun k => ¬isLockKey k) = true) :
    (a ++ b).all (fun k => ¬isLockKey k) = true := by
  rw [List.all_append, h1, h2]
  rfl

theorem nonLockKeys_map {α : Type} (l : List α) (f : α → RKey)
    (h : ∀ a, isLockKey (f a) = false) :
    (l.map f).all (fun k => ¬isLockKey k) = true := by
  refine List.all_eq_true.mpr (fun k hk => ?_)
  rcases List.mem_map.mp hk with ⟨a, _, rfl⟩
  simp [h a]

theorem lockFreeOps_ite (c : Prop) [Decidable c] (a b : List KVOp)
    (h1 : lockFreeOps a = true) (h2 : lockFreeOps b = true) :
    lockFreeOps (if c then a else b) = true := by
  split
  · exact h1
  · exact h2

theorem nonLockKeys_ite (c : Prop) [Decidable c] (a b : List RKey)
    (h1 : a.all (fun k => ¬isLockKey k) = true)
    (h2 : b.all (fun k => ¬isLockKey k) = true) :
    (if c then a else b).all (fun k => ¬isLockKey k) = true := by
  split
  · exact h1
  · exact h2

theorem lockFree_delK (ks : List RKey)
    (h : ks.all (fun k => ¬isLockKey k) = true) :
    lockFreeOp (.delK ks) = true := by
  have h' : ∀ x ∈ ks, isLockKey x = false := by
    intro x hx
    have := List.all_eq_true.mp h x hx
    simpa using this
  simp [lockFreeOp, KVOp.keys]
  exact h'

theorem lockFree_indexProductsOps (P : String) (st : KV) (ps : List Product) :
    lockFreeOps (indexProductsOps P st ps) = true := by
  unfold indexProductsOps
  split
  · rfl
  · dsimp only
    refine lockFreeOps_append_true _ _ ?_
      (lockFreeOps_map_true _ _ (fun a => rfl))
    refine lockFreeOps_append_true _ _ ?_ ?_
    · refine lockFreeOps_append_true _ _ ?_
        (lockFreeOps_map_true _ _ (fun a => rfl))
      refine lockFreeOps_append_true _ _ ?_
        (lockFreeOps_map_true _ _ (fun a => rfl))
      refine lockFreeOps_append_true _ _
        (lockFreeOps_cons_true _ _ rfl
          (lockFreeOps_cons_true _ _ rfl lockFreeOps_nil)) ?_
      refine lockFreeOps_ite _ _ _ ?_ lockFreeOps_nil
      refine lockFreeOps_cons_true _ _ ?_ lockFreeOps_nil
      refine lockFree_delK _ ?_
      refine nonLockKeys_append _ _ ?_ (nonLockKeys_ite _ _ _ rfl rfl)
      refine nonLockKeys_append _ _ ?_ (nonLockKeys_map _ _ (fun a => rfl))
      exact nonLockKeys_append _ _ (nonLockKeys_map _ _ (fun a => rfl))
        (nonLockKeys_map _ _ (fun a => rfl))
    · refine lockFreeOps_filterMap_true _ _ (fun a op h => ?_)
      split at h
      · cases h
        rfl
      · cases h

theorem lockFree_saveProductsOps (P : String) (ids : List String) :
    lockFreeOps (saveProductsOps P ids) = true := by
  unfold saveProductsOps
  refine lockFreeOps_append_true _ _ ?_
    (lockFreeOps_cons_true _ _ rfl lockFreeOps_nil)
  refine lockFreeOps_append_true _ _ ?_ ?_
  · refine lockFreeOps_append_true _ _
      (lockFreeOps_map_true _ _ (fun a => rfl))
      (lockFreeOps_cons_true _ _ (lockFree_delK _ rfl) lockFreeOps_nil)
  · exact lockFreeOps_ite _ _ _
      (lockFreeOps_cons_true _ _ rfl lockFreeOps_nil) lockFreeOps_nil

theorem lockFree_loadFeedOps (P : String)
    (fetched : Except String FeedPayload) :
    lockFreeOps (loadFeedOps P fetched) = true := by
  unfold loadFeedOps
  cases fetched <;> rfl

/-- **C9 (counterexample).** A concrete scheduler refresh of project `demo`
that proceeds all the way through download, save and reindex: its Redis
trace is non-empty, contains no set-if-absent acquisition and touches no
`lock:feed:{p}` key — no lock is taken before the refresh. The on-demand
feed-load path is likewise lock-free. -/
theorem scheduler_runs_without_lock :
    KVOp.hset (RKey.projectFeed "demo")
        ["status", "progress", "message", "update_started"]
      ∈ schedulerProjectOps "demo" stOld [("feed_url", "http://x")] true
          (.ok ⟨⟨1, 0, "shop"⟩, ["a"], [pRed]⟩)
    ∧ lockFreeOps (schedulerProjectOps "demo" stOld [("feed_url", "http://x")]
        true (.ok ⟨⟨1, 0, "shop"⟩, ["a"], [pRed]⟩)) = true
    ∧ lockFreeOps (onDemandFeedOps "demo" stOld true
        (.ok ⟨⟨1, 0, "shop"⟩, ["a"], [pRed]⟩)) = true
    ∧ RKey.render (.lockFeed "demo") = "lock:feed:demo" := by
  refine ⟨by decide, by decide, by decide, rfl⟩

/-- **C9 (amended).** No feed-refresh path takes a lock: neither the
scheduler's per-project refresh nor the on-demand feed-load endpoint ever
issues a set-if-absent command or touches any `lock:feed:{p}` key, whatever
the project data, staleness outcome or fetch result — so concurrent
refreshes of the same project are not mutually excluded. -/
theorem feed_refresh_lock_free (P : String) (st : KV)
    (projectData : List (String × String)) (stale : Bool)
    (fetched : Except String FeedPayload) (found : Bool) :
    lockFreeOps (schedulerProjectOps P st projectData stale fetched) = true
    ∧ lockFreeOps (onDemandFeedOps P st found fetched) = true := by
  constructor
  · unfold schedulerProjectOps
    refine lockFreeOps_append_true _ _
      (lockFreeOps_cons_true _ _ rfl lockFreeOps_nil) ?_
    split
    · rfl
    · split
      · rfl
      · split
        · rfl
        · split
          · rfl
          · refine lockFreeOps_append_true _ _
              (lockFreeOps_cons_true _ _ rfl lockFreeOps_nil) ?_
            split
            · rfl
            · refine lockFreeOps_append_true _ _ ?_ ?_
              · refine lockFreeOps_append_true _ _
                  (lockFreeOps_cons_true _ _ rfl lockFreeOps_nil)
                  (lockFree_loadFeedOps P fetched)
              · split
                · refine lockFreeOps_append_true _ _ ?_
                    (lockFreeOps_cons_true _ _ rfl lockFreeOps_nil)
                  refine lockFreeOps_append_true _ _ ?_
                    (lockFree_indexProductsOps P st _)
                  refine lockFreeOps_append_true _ _
                    (lockFreeOps_cons_true _ _ rfl lockFreeOps_nil)
                    (lockFree_saveProductsOps P _)
                · exact lockFreeOps_cons_true _ _ rfl lockFreeOps_nil
  · unfold onDemandFeedOps
    refine lockFreeOps_append_true _ _
      (lockFreeOps_cons_true _ _ rfl lockFreeOps_nil) ?_
    split
    · rfl
    · refine lockFreeOps_append_true _ _ ?_ ?_
      · refine lockFreeOps_append_true _ _
          (lockFreeOps_cons_true _ _ rfl
            (lockFreeOps_cons_true _ _ rfl (lockFreeOps_cons_true _ _ rfl lockFreeOps_nil)))
          (lockFree_loadFeedOps P fetched)
      · split
        · exact lockFreeOps_append_true _ _
            (lockFree_saveProductsOps P _) (lockFree_indexProductsOps P st _)
        · rfl

/-- **C10 (counterexample).** `update_product_stock` never recomputes
`discount_percent`: updating price to 200 = old_price leaves the stale
stored value 50 in place, where the claimed recomputation would clear it
(since `price < old_price` now fails). -/
theorem stock_update_stale_discount :
    (updateProductStock stStale "p1" true (some 200)).2 = true
    ∧ dget? ((updateProductStock stStale "p1" true (some 200)).1.store) "p1"
        = some [("id", .s "p1"), ("price", .num 200), ("old_price", .num 200),
                ("discount_percent", .num 50), ("in_stock", .b true)]
    ∧ ¬((200 : ℚ) < 200) := by
  refine ⟨by decide, by decide, by norm_num⟩

/-- **C10 (amended).** The partial stock/price update mutates only
`in_stock` (always) and `price` (when supplied) on the existing record —
`old_price` and `quantity` cannot be updated and `discount_percent` is not
recomputed; every other field, every other record and every index structure
is unchanged; a missing record yields `false` and no write. -/
theorem stock_update_frame (st : KV) (pid : String) (b : Bool)
    (pr : Option ℚ) :
    (dget? st.store pid = none → updateProductStock st pid b pr = (st, false))
    ∧ (∀ r, dget? st.store pid = some r →
        (updateProductStock st pid b pr).2 = true
        ∧ (updateProductStock st pid b pr).1.inv = st.inv
        ∧ (updateProductStock st pid b pr).1.ngramIdx = st.ngramIdx
        ∧ (updateProductStock st pid b pr).1.suggest = st.suggest
        ∧ (updateProductStock st pid b pr).1.feedStatus = st.feedStatus
        ∧ (updateProductStock st pid b pr).1.synonyms = st.synonyms
        ∧ (∀ pid', pid' ≠ pid →
            dget? (updateProductStock st pid b pr).1.store pid'
              = dget? st.store pid')
        ∧ ∃ r', dget? (updateProductStock st pid b pr).1.store pid = some r'
            ∧ dget? r' "in_stock" = some (.b b)
            ∧ (∀ k, k ≠ "in_stock" → k ≠ "price" → dget? r' k = dget? r k)
            ∧ (pr = none → dget? r' "price" = dget? r "price")
            ∧ (∀ v, pr = some v → dget? r' "price" = some (.num v))) := by
  constructor
  · intro h
    unfold updateProductStock
    rw [h]
  · intro r h
    unfold updateProductStock
    rw [h]
    rcases pr with _ | v
    · dsimp only
      refine ⟨rfl, rfl, rfl, rfl, rfl, rfl, ?_, ?_⟩
      · intro pid' hne
        exact dget?_dset_ne _ _ _ _ hne
      · refine ⟨_, dget?_dset_self _ _ _, dget?_dset_self _ _ _, ?_, ?_, ?_⟩
        · intro k hk _
          exact dget?_dset_ne _ _ _ _ hk
        · intro _
          exact dget?_dset_ne _ _ _ _ (by decide)
        · intro v hv
          cases hv
    · dsimp only
      refine ⟨rfl, rfl, rfl, rfl, rfl, rfl, ?_, ?_⟩
      · intro pid' hne
        exact dget?_dset_ne _ _ _ _ hne
      · refine ⟨_, dget?_dset_self _ _ _, ?_, ?_, ?_, ?_⟩
        · rw [dget?_dset_ne _ _ _ _ (by decide), dget?_dset_self]
        · intro k hk hk'
          rw [dget?_dset_ne _ _ _ _ hk', dget?_dset_ne _ _ _ _ hk]
        · intro hv
          cases hv
        · intro v' hv
          cases hv
          rw [dget?_dset_self]

/-- Witness for the amended C10 theorem: the stale record exists and is
updated with `true` returned; a missing ID returns `false` untouched. -/
theorem stock_update_frame_witness :
    dget? stStale.store "p1" = some recStale
    ∧ (updateProductStock stStale "p1" true (some 200)).2 = true
    ∧ updateProductStock stStale "ghost" true none = (stStale, false) :=
  ⟨by decide,
   ((stock_update_frame stStale "p1" true (some 200)).2 recStale (by decide)).1,
   (stock_update_frame stStale "ghost" true none).1 (by decide)⟩

end SearchSvc
